import Mathlib

/-!
# Verification of the gocrawler concurrent web crawler

Shallow embedding of the crawler's components, translated from the Go source:

* `NetURL`   — model of the subset of Go's standard-library `net/url` package
               (an external dependency of the crawler) that the crawler code
               exercises: `url.Parse`, `URL.ResolveReference`, `URL.String`.
* `Storage`  — `storage.Results` (`AddPage`, `GetStats`) from `storage/results.go`.
* `Crawler`  — `crawler.New`, `NewRateLimiter`, the visited-set operations
               `isVisited`/`markVisited`, `resolveURL`, `shouldCrawl`, the
               worker body and the termination detector from
               `crawler/crawler.go` and `crawler/ratelimiter.go`.

Machine integers are modelled as `Int`/`Nat` (overflow is irrelevant at the
magnitudes involved); Go panics are modelled as `Except.error`; real time
(tickers, response times) is abstracted to event streams and explicit
nanosecond counts.
-/

namespace NetURL

/-! ## Model of Go `net/url` (external standard-library dependency)

The crawler calls `url.Parse`, `URL.ResolveReference` and `URL.String`.
The model below follows the control flow of Go's `net/url` `parse`,
`getScheme`, `resolvePath`, `ResolveReference` and `URL.String` for the
URL shapes the crawler handles.  Simplifications, each noted inline:
userinfo is dropped rather than validated, port syntax is not validated,
`ForceQuery` (a lone trailing `?`) is not tracked, and percent-escapes are
validated but stored raw (Go stores the decoded form and re-escapes on
output; for the escape-free URLs in this development the two agree). -/

/-- The components of a parsed URL, after Go's `url.URL`.
`opq` models `URL.Opaque` (scheme:data URLs such as `javascript:void(0)`). -/
structure GoURL where
  scheme : String := ""
  opq : String := ""
  host : String := ""
  omitHost : Bool := false
  path : String := ""
  rawQuery : String := ""
  fragment : String := ""
  deriving Repr, DecidableEq

/-- Go `stringContainsCTLByte`: control characters make a URL unparseable. -/
def containsCTL (l : List Char) : Bool :=
  l.any fun c => c.toNat < 0x20 || c.toNat == 0x7f

/-- Hex digit test for percent-escape validation. -/
def isHexChar (c : Char) : Bool :=
  c.isDigit || ('a' ≤ c && c ≤ 'f') || ('A' ≤ c && c ≤ 'F')

/-- Go `unescape` validation: every `%` must head a `%XX` hex escape. -/
def validEscapes : List Char → Bool
  | [] => true
  | '%' :: a :: b :: rest => isHexChar a && isHexChar b && validEscapes rest
  | '%' :: _ => false
  | _ :: rest => validEscapes rest

/-- ASCII lowercase of one character (Go `strings.ToLower` on scheme names). -/
def charLower (c : Char) : Char :=
  if 'A' ≤ c && c ≤ 'Z' then Char.ofNat (c.toNat + 32) else c

/-- Split at the first occurrence of `c`: returns the part before and,
when found, the part after (Go `strings.Cut`). -/
def cutChar (c : Char) : List Char → List Char × Option (List Char)
  | [] => ([], none)
  | x :: rest =>
    if x = c then ([], some rest)
    else
      let (pre, post) := cutChar c rest
      (x :: pre, post)

/-- Go `getScheme`'s scanning loop: a scheme is `ALPHA *(ALPHA / DIGIT / "+" / "-" / ".")`
followed by `:`.  Returns `none` when the string has no scheme prefix. -/
def schemeSplit (acc : List Char) : List Char → Option (List Char × List Char)
  | [] => none
  | c :: rest =>
    if c = ':' then some (acc.reverse, rest)
    else if c.isAlpha then schemeSplit (c :: acc) rest
    else if (c.isDigit || c = '+' || c = '-' || c = '.') && !acc.isEmpty then
      schemeSplit (c :: acc) rest
    else none

/-- Split on every occurrence of `c` (Go `strings.Split` for one-byte separators). -/
def splitOnChar (c : Char) : List Char → List (List Char)
  | [] => [[]]
  | x :: rest =>
    match splitOnChar c rest with
    | s :: ss => if x = c then [] :: s :: ss else (x :: s) :: ss
    | [] => [[x]]

/-- Index of the last `'/'` in `l`, if any. -/
def lastSlashIdx (l : List Char) : Option Nat :=
  (l.reverse.findIdx? (· = '/')).map fun i => l.length - 1 - i

/-- One iteration of the segment loop of Go `resolvePath`:
state is the builder contents `dst` (always starting with `'/'`) and the
`first` flag. -/
def resolvePathSeg (st : List Char × Bool) (seg : List Char) : List Char × Bool :=
  let (dst, first) := st
  if seg = ['.'] then (dst, false)
  else if seg = ['.', '.'] then
    let str := dst.drop 1
    match lastSlashIdx str with
    | none => (['/'], true)
    | some idx => ('/' :: str.take idx, first)
  else
    ((dst ++ (if first then [] else ['/']) ++ seg), false)

/-- Go `resolvePath base ref`: merge `ref` onto the directory of `base` and
remove dot segments, per RFC 3986 §5.2, following Go's builder loop. -/
def resolvePath (base ref : List Char) : List Char :=
  let full :=
    if ref = [] then base
    else if ref.head? ≠ some '/' then
      (match lastSlashIdx base with
       | none => []
       | some i => base.take (i + 1)) ++ ref
    else ref
  if full = [] then []
  else
    let segs := splitOnChar '/' full
    let (dst, _) := segs.foldl resolvePathSeg (['/'], true)
    let dst := if segs.getLastD [] = ['.'] || segs.getLastD [] = ['.', '.'] then
        dst ++ ['/'] else dst
    if dst.length > 1 && dst.get? 1 = some '/' then dst.drop 1 else dst

/-- Characters Go's `parseHost`/`shouldEscape(encodeHost)` rejects in a
host name (subset: the printable ASCII characters that cannot appear). -/
def badHostChar (c : Char) : Bool :=
  c = ' ' || c = '"' || c = '<' || c = '>' || c = '\x7b' || c = '\x7d' ||
  c = '|' || c = '\\' || c = '^' || c = '`'

/-- Go `parseAuthority`/`parseHost`, simplified: userinfo before the last `@`
is dropped (Go validates and keeps it; the crawler never uses it), ports are
not validated, percent-escapes and forbidden characters are checked. -/
def parseHostModel (auth : List Char) : Option (List Char) :=
  let host := match (auth.reverse.findIdx? (· = '@')) with
    | none => auth
    | some i => auth.drop (auth.length - i)
  if host.any badHostChar then none
  else if validEscapes host then some host else none

/-- Go `parse(rawURL, viaRequest=false)` after the fragment has been split off. -/
def parseNoFrag (l : List Char) : Option GoURL :=
  if l = ['*'] then some { path := "*" } else
  if l.head? = some ':' then none  -- Go: "missing protocol scheme"
  else
    let (scheme, rest) := match schemeSplit [] l with
      | some (s, r) => ((String.mk (s.map charLower)), r)
      | none => ("", l)
    let (rest, q) := cutChar '?' rest
    let rawQuery : String := ⟨q.getD []⟩  -- RawQuery is stored unvalidated
    if rest.head? ≠ some '/' then
      if scheme ≠ "" then some { scheme := scheme, opq := ⟨rest⟩, rawQuery := rawQuery }
      else if (rest.takeWhile (· ≠ '/')).contains ':' then
        none  -- Go: "first path segment in URL cannot contain colon"
      else if validEscapes rest then
        some { path := ⟨rest⟩, rawQuery := rawQuery }
      else none
    else
      if rest.take 2 = ['/', '/'] && (scheme ≠ "" || ¬ rest.take 3 = ['/', '/', '/']) then
        let afterSlashes := rest.drop 2
        let auth := afterSlashes.takeWhile (· ≠ '/')
        let rest2 := afterSlashes.dropWhile (· ≠ '/')
        match parseHostModel auth with
        | none => none
        | some host =>
          if validEscapes rest2 then
            some { scheme := scheme, host := ⟨host⟩, path := ⟨rest2⟩, rawQuery := rawQuery }
          else none
      else
        if validEscapes rest then
          some { scheme := scheme, omitHost := scheme ≠ "", path := ⟨rest⟩,
                 rawQuery := rawQuery }
        else none

/-- Go `url.Parse`: split off the fragment, parse the rest, validate the
fragment's escapes.  `none` models Go returning a non-nil error. -/
def urlParse (raw : String) : Option GoURL :=
  let l := raw.toList
  if containsCTL l then none
  else
    let (beforeFrag, frag) := cutChar '#' l
    match parseNoFrag beforeFrag with
    | none => none
    | some u =>
      match frag with
      | none => some u
      | some f => if validEscapes f then some { u with fragment := ⟨f⟩ } else none

/-- Go `URL.String()` for the fields this model tracks (escape-free URLs
print their components verbatim). -/
def GoURL.render (u : GoURL) : String :=
  let buf := if u.scheme ≠ "" then u.scheme ++ ":" else ""
  if u.opq ≠ "" then
    buf ++ u.opq
      ++ (if u.rawQuery ≠ "" then "?" ++ u.rawQuery else "")
      ++ (if u.fragment ≠ "" then "#" ++ u.fragment else "")
  else
    let buf :=
      if u.scheme ≠ "" || u.host ≠ "" then
        if u.omitHost && u.host = "" then buf
        else (if u.host ≠ "" || u.path ≠ "" then buf ++ "//" else buf) ++ u.host
      else buf
    let pathPart :=
      if u.path ≠ "" && u.path.toList.head? ≠ some '/' && u.host ≠ "" then
        "/" ++ u.path
      else u.path
    let pathPart :=
      if buf = "" && (u.path.toList.takeWhile (· ≠ '/')).contains ':' then
        "./" ++ pathPart
      else pathPart
    buf ++ pathPart
      ++ (if u.rawQuery ≠ "" then "?" ++ u.rawQuery else "")
      ++ (if u.fragment ≠ "" then "#" ++ u.fragment else "")

/-- Go `URL.ResolveReference` (RFC 3986 §5.3), without userinfo. -/
def GoURL.resolveReference (u ref : GoURL) : GoURL :=
  let r := if ref.scheme = "" then { ref with scheme := u.scheme } else ref
  if ref.scheme ≠ "" || ref.host ≠ "" then
    { r with path := ⟨resolvePath ref.path.toList []⟩ }
  else if ref.opq ≠ "" then
    { r with host := "", path := "" }
  else
    let r :=
      if ref.path = "" && ref.rawQuery = "" then
        let r := { r with rawQuery := u.rawQuery }
        if ref.fragment = "" then { r with fragment := u.fragment } else r
      else r
    { r with host := u.host, path := ⟨resolvePath u.path.toList ref.path.toList⟩ }

end NetURL

namespace Storage

/-! ## `storage/results.go` -/

/-- `storage.Page`.  `responseTimeNs` models `time.Duration` (int64
nanoseconds; response times are non-negative).  `CrawledAt` (wall-clock
time) is not modelled.  `error` is the empty string when the fetch
succeeded, exactly as the Go zero value. -/
structure Page where
  url : String
  title : String
  description : String
  links : List String
  responseTimeNs : Nat
  success : Bool
  error : String
  deriving Repr, DecidableEq

/-- `storage.Stats`.  `avgResponseTime` is `float64` in Go; it is modelled
as an exact rational (the division below is the only float operation). -/
structure Stats where
  totalPages : Nat
  uniqueLinks : Nat
  avgResponseTime : Rat
  successCount : Nat
  failCount : Nat
  durationNs : Nat
  deriving Repr, DecidableEq

/-- `Results.AddPage`: append one page; `Success` is `err == nil` and
`Error` is the error text when present.  The `pages` slice is modelled as
the list of pages in append order (the mutex only serialises appends). -/
def AddPage (pages : List Page) (url title description : String)
    (links : List String) (responseTimeNs : Nat) (err : Option String) :
    List Page :=
  pages ++ [{ url := url, title := title, description := description,
              links := links, responseTimeNs := responseTimeNs,
              success := err.isNone, error := err.getD "" }]

/-- `Results.GetStats`: totals, success/fail counts, distinct link count,
and `AvgResponseTime = float64(totalTime.Milliseconds()) / float64(total)`
(`Duration.Milliseconds` truncates the nanosecond sum). -/
def GetStats (pages : List Page) (durationNs : Nat) : Stats :=
  let total := pages.length
  if total = 0 then
    { totalPages := 0, uniqueLinks := 0, avgResponseTime := 0,
      successCount := 0, failCount := 0, durationNs := durationNs }
  else
    let totalTime := (pages.map Page.responseTimeNs).sum
    { totalPages := total
      uniqueLinks := ((pages.map Page.links).flatten.dedup).length
      avgResponseTime := ((totalTime / 1000000 : Nat) : Rat) / (total : Rat)
      successCount := (pages.filter Page.success).length
      failCount := (pages.filter fun p => ¬ p.success).length
      durationNs := durationNs }

/-- The arguments of one `AddPage` call. -/
structure AddCall where
  url : String
  title : String
  description : String
  links : List String
  responseTimeNs : Nat
  err : Option String
  deriving Repr, DecidableEq

/-- Replay a sequence of `AddPage` calls against a fresh `Results` store
(any serialisation of concurrent callers is some such sequence, since the
mutex makes each append atomic). -/
def runAddPages (calls : List AddCall) : List Page :=
  calls.foldl
    (fun pages c =>
      AddPage pages c.url c.title c.description c.links c.responseTimeNs c.err)
    []

/-- The page one `AddPage` call appends. -/
def AddCall.toPage (c : AddCall) : Page :=
  { url := c.url, title := c.title, description := c.description,
    links := c.links, responseTimeNs := c.responseTimeNs,
    success := c.err.isNone, error := c.err.getD "" }

end Storage

namespace Crawler

open NetURL Storage

/-! ## `crawler/ratelimiter.go` -/

/-- `crawler.RateLimiter`: the buffered token channel, modelled by its
capacity and current token count (the ticker is external real time and is
modelled by `RLOp.refillTick` events). -/
structure RateLimiter where
  capacity : Nat
  tokens : Nat
  deriving Repr, DecidableEq

/-- `NewRateLimiter`: `interval := time.Second / time.Duration(rps)` (Go
integer division truncates toward zero, and panics when `rps = 0`);
`time.NewTicker` panics on a non-positive interval; the bucket is then
created with capacity `rps` and filled with `rps` tokens.  Panics are
modelled as `Except.error` with the Go runtime's message. -/
def NewRateLimiter (requestsPerSecond : Int) : Except String RateLimiter :=
  if requestsPerSecond = 0 then .error "integer divide by zero"
  else
    let interval := Int.tdiv 1000000000 requestsPerSecond
    if interval ≤ 0 then .error "non-positive interval for NewTicker"
    else .ok { capacity := requestsPerSecond.toNat,
               tokens := requestsPerSecond.toNat }

/-- The refill goroutine's body for one ticker firing: a non-blocking send
into the token channel — add a token if below capacity, silently drop
otherwise. -/
def refillTick (rl : RateLimiter) : RateLimiter :=
  if rl.tokens < rl.capacity then { rl with tokens := rl.tokens + 1 } else rl

/-- `RateLimiter.Wait`: take a token when one is buffered; when the context
is cancelled, return without taking a token.  (A call finding an empty
bucket and a live context blocks; modelled as the event not occurring.) -/
def wait (rl : RateLimiter) (cancelled : Bool) : RateLimiter :=
  if cancelled then rl
  else if 0 < rl.tokens then { rl with tokens := rl.tokens - 1 } else rl

/-- The events that can touch the token bucket after construction. -/
inductive RLOp where
  | refill
  | acquire (cancelled : Bool)
  deriving Repr, DecidableEq

/-- Apply one bucket event. -/
def applyOp (rl : RateLimiter) : RLOp → RateLimiter
  | .refill => refillTick rl
  | .acquire c => wait rl c

/-- Apply a sequence of bucket events in order. -/
def applyOps (rl : RateLimiter) (ops : List RLOp) : RateLimiter :=
  ops.foldl applyOp rl

/-! ## `crawler/crawler.go` -/

/-- `crawler.Job`: depth is a Go `int`. -/
structure Job where
  url : String
  depth : Int
  deriving Repr, DecidableEq

/-- `crawler.Crawler` as built by `New` (the `http.Client` is an external
collaborator and is not modelled; the mutable `visited` map starts empty). -/
structure CrawlerCfg where
  workers : Int
  maxDepth : Int
  rateLimiter : RateLimiter
  visited : List String
  deriving Repr, DecidableEq

/-- `crawler.New`: no argument is validated; the only failure is the panic
propagated from `NewRateLimiter`. -/
def New (workers rateLimit maxDepth : Int) : Except String CrawlerCfg :=
  (NewRateLimiter rateLimit).map fun rl =>
    { workers := workers, maxDepth := maxDepth, rateLimiter := rl,
      visited := [] }

/-- `isVisited`: membership of the raw URL string in the visited map (one
`RLock`ed read). -/
def isVisited (visited : List String) (url : String) : Bool :=
  visited.contains url

/-- `markVisited`: insert the raw URL string into the visited map (one
`Lock`ed write). -/
def markVisited (visited : List String) (url : String) : List String :=
  visited.insert url

/-- `resolveURL`: parse the href, returning `""` on error, else resolve it
against the base and print it. -/
def resolveURL (base : GoURL) (href : String) : String :=
  match urlParse href with
  | none => ""
  | some link => (base.resolveReference link).render

/-- `shouldCrawl`: parse the target (false on error), then require the
same host as the base and an `http`/`https` scheme. -/
def shouldCrawl (targetURL : String) (baseURL : GoURL) : Bool :=
  match urlParse targetURL with
  | none => false
  | some target =>
    target.host == baseURL.host &&
      (target.scheme == "http" || target.scheme == "https")

/-- The job queue's buffer size: `jobs := make(chan Job, 100)` in `Crawl`. -/
def queueCapacity : Nat := 100

/-- The non-blocking enqueue in the worker
(`select { case jobs <- job: default: }`): the send succeeds exactly when
the buffer is below capacity, otherwise the job is dropped. -/
def tryEnqueue (q : List Job) (j : Job) : List Job :=
  if q.length < queueCapacity then q ++ [j] else q

/-- `parser.PageInfo` — the external parser's output (title, description
and the filtered, deduplicated links). -/
structure PageInfo where
  title : String
  description : String
  links : List String
  deriving Repr, DecidableEq

/-- The outcome of `client.Get` + `parser.Parse` for one URL — the
fetch+extract adapter is an external collaborator, so a worker step is
parameterised by this oracle value. -/
inductive FetchOutcome where
  | netError (msg : String) (durNs : Nat)
  | response (status : Int) (parsed : Except String PageInfo) (durNs : Nat)
  deriving Repr

/-- The crawl-run state a worker step touches: the job queue buffer, the
visited map, the results store, and (ghost, for specification only) the
list of jobs that were claimed and fetched, in fetch order. -/
structure CrawlState where
  queue : List Job
  visited : List String
  results : List Page
  processed : List Job
  deriving Repr, DecidableEq

/-- The enqueue loop over a page's extracted links (worker lines 169-180):
resolve each link against the page's URL, keep it when non-empty and in
scope, and try a non-blocking enqueue at the parent depth + 1. -/
def enqueueLinks (base : GoURL) (depth : Int) (q : List Job)
    (links : List String) : List Job :=
  links.foldl
    (fun q link =>
      let childURL := resolveURL base link
      if childURL ≠ "" && shouldCrawl childURL base then
        tryEnqueue q { url := childURL, depth := depth + 1 }
      else q)
    q

/-- One worker iteration for a dequeued job `j` (worker lines 126-181),
with `st.queue` already the buffer after the dequeue.  Skip if visited;
otherwise mark visited, fetch (`o j.url`), record exactly one `PageResult`
(failed on network error / non-200 / parse error, successful otherwise),
and, only on success with `j.depth < maxDepth`, resolve and enqueue the
extracted links.  `rateLimiter.Wait` only spends time, not crawl state.
(When `url.Parse(job.URL)` fails Go would dereference a nil base URL; no
such job is reachable from a parseable seed, and the model skips the
children instead.) -/
def processJob (maxDepth : Int) (o : String → FetchOutcome)
    (st : CrawlState) (j : Job) : CrawlState :=
  if isVisited st.visited j.url then st
  else
    let st := { st with visited := markVisited st.visited j.url,
                        processed := st.processed ++ [j] }
    match o j.url with
    | .netError msg d =>
      { st with results := AddPage st.results j.url "" "" [] d (some msg) }
    | .response status parsed d =>
      if status ≠ 200 then
        { st with results := (AddPage st.results j.url "" "" [] d
            (some ("status " ++ toString status))) }
      else
        match parsed with
        | .error msg =>
          { st with results := AddPage st.results j.url "" "" [] d (some msg) }
        | .ok info =>
          let st := { st with results := (AddPage st.results j.url info.title
              info.description info.links d none) }
          if j.depth < maxDepth then
            match urlParse j.url with
            | none => st
            | some base =>
              { st with queue := enqueueLinks base j.depth st.queue info.links }
          else st

/-- The crawl-run start state (`Crawl` lines 56-67): the buffer holds the
seed job at depth 0; visited, results and the ghost trace are empty. -/
def initState (seed : String) : CrawlState :=
  { queue := [{ url := seed, depth := 0 }], visited := [], results := [],
    processed := [] }

/-- The crawl states reachable from the seed: at each step some worker
dequeues the job at the head of the buffer and runs one iteration, with an
arbitrary fetch outcome.  (Workers run concurrently in Go; every
interleaving of whole worker iterations is a sequence of such steps, the
per-iteration races being the subject of the dedup claims.) -/
inductive Reachable (maxDepth : Int) (seed : String) : CrawlState → Prop where
  | init : Reachable maxDepth seed (initState seed)
  | step {st : CrawlState} {j : Job} {rest : List Job}
      (h : Reachable maxDepth seed st) (hq : st.queue = j :: rest)
      (o : String → FetchOutcome) :
      Reachable maxDepth seed (processJob maxDepth o { st with queue := rest } j)

/-! ## The termination detector (`Crawl` lines 70-102) -/

/-- The detector's polling cadence: `time.NewTicker(500 * time.Millisecond)`. -/
def detectorPollIntervalMs : Nat := 500

/-- The detector's loop state: `prevVisited` and `stableCount`
(both start at 0). -/
structure DetectorState where
  prev : Nat
  stable : Nat
  deriving Repr, DecidableEq

/-- The detector's start state. -/
def detectorInit : DetectorState := { prev := 0, stable := 0 }

/-- One ticker firing: read the visited-set size, bump `stableCount` when
it is unchanged (reset it otherwise), and signal when `stableCount ≥ 3`. -/
def detectorTick (st : DetectorState) (current : Nat) : DetectorState × Bool :=
  let stable := if current = st.prev then st.stable + 1 else 0
  ({ prev := current, stable := stable }, decide (3 ≤ stable))

/-- What the detector's `select` can observe: a context-cancellation, or a
ticker firing with the visited-set size it reads. -/
inductive DetectorEvent where
  | cancel
  | tick (size : Nat)
  deriving Repr, DecidableEq

/-- Run the detector over an event stream; returns the index of the event
at which it sends on `jobsDone` (upon which `Crawl` closes the job queue),
or `none` if the stream ends first. -/
def detectorRun (st : DetectorState) : List DetectorEvent → Option Nat
  | [] => none
  | .cancel :: _ => some 0
  | .tick n :: rest =>
    let (st', sig) := detectorTick st n
    if sig then some 0 else (detectorRun st' rest).map (· + 1)

/-- `detectorRun` on ticks only. -/
def detectorRunTicks (st : DetectorState) (sizes : List Nat) : Option Nat :=
  detectorRun st (sizes.map .tick)

/-- The visited-set size the detector reads at poll `i` of a finite poll
trace (0 when out of range). -/
def sizeAt (sizes : List Nat) (i : Nat) : Nat := sizes.getD i 0

/-- Poll `i` observed no change: its size equals the previous poll's
(the detector's `prevVisited` starts at 0, so poll 0 counts as unchanged
exactly when the size is still 0). -/
def unchangedAt (sizes : List Nat) (i : Nat) : Bool :=
  sizeAt sizes i == (if i = 0 then 0 else sizeAt sizes (i - 1))

/-- Polls `k-2`, `k-1` and `k` — three consecutive polls — all observed
no change in the visited-set size. -/
def stableTriple (sizes : List Nat) (k : Nat) : Bool :=
  decide (2 ≤ k) && unchangedAt sizes k && unchangedAt sizes (k - 1) &&
    unchangedAt sizes (k - 2)

/-- The detector's `stableCount` after it has processed polls `0..k`,
starting from `prevVisited = p` and `stableCount = s`. -/
def streakG (p s : Nat) (sizes : List Nat) : Nat → Nat
  | 0 => if sizeAt sizes 0 = p then s + 1 else 0
  | k + 1 =>
    if sizeAt sizes (k + 1) = sizeAt sizes k then streakG p s sizes k + 1 else 0

/-! ## The visited-check race (worker lines 126-130)

`isVisited` and `markVisited` each take the mutex, but the worker calls
them as two separate critical sections.  The model below runs `t` workers
that each execute, on the same URL, the two atomic steps
`sawVisited := isVisited(u)` and (when `sawVisited` was `false`)
`markVisited(u)`; a schedule interleaves these per-worker programs.
A worker proceeds to fetch exactly when its `isVisited` read returned
`false`. -/

/-- Shared + per-worker state for `t` workers racing on one URL:
`visited` is whether the URL is in the map, `saw i` records worker `i`'s
`isVisited` result once it has run, `marked i` whether it has run
`markVisited`. -/
structure RaceState where
  visited : Bool
  saw : List (Option Bool)
  marked : List Bool
  deriving Repr, DecidableEq

/-- All workers are before their `isVisited` call; the URL is unvisited. -/
def raceInit (t : Nat) : RaceState :=
  { visited := false, saw := List.replicate t none,
    marked := List.replicate t false }

/-- Let worker `i` execute its next atomic step (its two steps respect
program order; a worker whose check saw `true` executes `continue` and a
finished worker does nothing). -/
def raceStep (st : RaceState) (i : Nat) : RaceState :=
  match st.saw.getD i (some true) with
  | none => { st with saw := st.saw.set i (some st.visited) }
  | some true => st
  | some false =>
    if st.marked.getD i true then st
    else { st with visited := true, marked := st.marked.set i true }

/-- Run a schedule (a list of worker indices). -/
def raceRun (st : RaceState) (sched : List Nat) : RaceState :=
  sched.foldl raceStep st

/-- How many workers obtained the right to fetch: those whose `isVisited`
check returned `false`. -/
def claimants (st : RaceState) : Nat :=
  (st.saw.filter (· = some false)).length

/-- A fetch oracle answering every URL with a successful, link-free page
(used to evaluate a crawl step at a concrete configuration). -/
def okFetch : String → FetchOutcome :=
  fun _ => .response 200 (.ok { title := "t", description := "d", links := [] }) 7

/-- The state after the very first worker iteration of a run configured
with `maxDepth = -1` (accepted unvalidated by `New`): the seed job at
depth 0 is dequeued and processed. -/
def negDepthState : CrawlState :=
  processJob (-1) okFetch { initState "http://ex.test/" with queue := [] }
    { url := "http://ex.test/", depth := 0 }

/-- The worker's claim sequence (lines 126-130) when its two calls run
without interleaving from other workers: check, then mark if absent;
returns whether the caller obtained the right to fetch, and the new map. -/
def claimStep (visited : List String) (url : String) : Bool × List String :=
  if isVisited visited url then (false, visited)
  else (true, markVisited visited url)

end Crawler

namespace SpecModel

open NetURL

/-- Following the spec's words (§4.2): the normalized visited-set key,
"scheme+host+path+query, fragment stripped".  Stated for refinement
comparison with the code's actual key (the raw URL string); not part of
the source. -/
def specNormalizedKey (u : GoURL) : String :=
  u.scheme ++ "://" ++ u.host ++ u.path ++
    (if u.rawQuery ≠ "" then "?" ++ u.rawQuery else "")

end SpecModel


/-! # Claim theorems -/

open NetURL Storage Crawler SpecModel

/-- Claim C1, evaluated at its failing schedule: the worker's
visited-check and visited-insert are two separate critical sections, so
with two workers holding jobs for the same URL the interleaving
"check A, check B, insert A, insert B" lets BOTH workers' `isVisited`
calls return false; both obtain the right to fetch and both complete,
refuting "exactly one caller obtains the right to fetch".  (A serial
schedule, by contrast, admits one claimant.) -/
theorem visited_check_and_set_race :
    claimants (raceRun (raceInit 2) [0, 1, 0, 1]) = 2 ∧
    (raceRun (raceInit 2) [0, 1, 0, 1]).marked = [true, true] ∧
    claimants (raceRun (raceInit 2) [0, 1, 0, 1]) ≠ 1 ∧
    claimants (raceRun (raceInit 2) [0, 0, 1, 1]) = 1 := by decide

/-- Claim C2, counterexample: `crawler.New` with `workerCount = -1` and
`maxDepth = -1` succeeds — construction reports no configuration error
for non-positive worker counts or negative depths. -/
theorem new_accepts_invalid_config :
    (Crawler.New (-1) 5 (-1)).isOk = true ∧
    ((-1 : Int) ≤ 0) ∧ ((-1 : Int) < 0) := by
  refine ⟨rfl, by decide, by decide⟩

/-- Claim C2 as amended: construction performs no validation.  `New`
accepts every `workerCount` and `maxDepth`; `requestsPerSecond = 0` makes
`NewRateLimiter` panic with a division by zero and a negative value makes
`time.NewTicker` panic, rather than reporting a configuration error; any
positive rate up to 10^9 constructs successfully regardless of the other
arguments. -/
theorem new_no_validation (w rl d : Int) :
    (rl = 0 → Crawler.New w rl d = .error "integer divide by zero") ∧
    (rl < 0 → Crawler.New w rl d = .error "non-positive interval for NewTicker") ∧
    (0 < rl → rl ≤ 1000000000 → (Crawler.New w rl d).isOk = true) := by
  refine ⟨?_, ?_, ?_⟩
  · rintro rfl
    rfl
  · intro hneg
    have h0 : rl ≠ 0 := by omega
    have htd : Int.tdiv 1000000000 rl ≤ 0 := by
      match rl, hneg with
      | Int.negSucc m, _ =>
        show -(Int.ofNat (1000000000 / m.succ)) ≤ 0
        exact neg_nonpos.mpr (Int.ofNat_nonneg _)
    simp only [Crawler.New, NewRateLimiter, if_neg h0, if_pos htd, Except.map]
  · intro hpos hle
    have h0 : rl ≠ 0 := by omega
    have htd : ¬ Int.tdiv 1000000000 rl ≤ 0 := by
      match rl, hpos with
      | Int.ofNat (n + 1), _ =>
        show ¬ Int.ofNat (1000000000 / (n + 1)) ≤ 0
        have hn : (n + 1 : Int) ≤ 1000000000 := hle
        have hn' : n + 1 ≤ 1000000000 := by omega
        have h1 : 1 ≤ 1000000000 / (n + 1) := (Nat.one_le_div_iff (Nat.succ_pos n)).mpr hn'
        have h2 : (1 : Int) ≤ Int.ofNat (1000000000 / (n + 1)) := Int.ofNat_le.mpr h1
        exact not_le.mpr (lt_of_lt_of_le zero_lt_one h2)
    simp only [Crawler.New, NewRateLimiter, if_neg h0, if_neg htd, Except.map, Except.isOk,
      Except.toBool]

/-- Claim C2 amended, witness at `rl = 0`, `rl = -5` and `rl = 5`. -/
theorem new_no_validation_witness :
    Crawler.New 10 0 2 = .error "integer divide by zero" ∧
    Crawler.New 10 (-5) 2 = .error "non-positive interval for NewTicker" ∧
    (Crawler.New 10 5 2).isOk = true :=
  ⟨(new_no_validation 10 0 2).1 rfl,
   (new_no_validation 10 (-5) 2).2.1 (by decide),
   (new_no_validation 10 5 2).2.2 (by decide) (by decide)⟩

/-- Claim C3, counterexample: the worker claims the raw `job.URL` string,
not a normalized form.  `/a#x` and `/a#y` resolved against the same page
keep their fragments, the spec's normalization maps both to the same key,
yet after claiming the first URL the second is still unvisited, so the
second claim SUCCEEDS (the claim says it must fail). -/
theorem visited_key_fragment_ce :
    resolveURL { scheme := "http", host := "ex.test", path := "/page" } "/a#x"
      = "http://ex.test/a#x" ∧
    resolveURL { scheme := "http", host := "ex.test", path := "/page" } "/a#y"
      = "http://ex.test/a#y" ∧
    (urlParse "http://ex.test/a#x").map specNormalizedKey
      = (urlParse "http://ex.test/a#y").map specNormalizedKey ∧
    ("http://ex.test/a#x" : String) ≠ "http://ex.test/a#y" ∧
    (claimStep (claimStep [] "http://ex.test/a#x").2 "http://ex.test/a#y").1
      = true := by
  refine ⟨by decide, by decide, by decide, by decide, by decide⟩

/-- Claim C3 as amended: the visited-set key is the raw URL string with no
normalization.  Claiming `u1` makes a repeated claim of the identical
string `u1` fail, but leaves the claim status of every other string `u2`
— in particular a fragment-variant of `u1` — unchanged, so both members
of a fragment-differing pair are claimed and fetched. -/
theorem visited_key_is_raw_string (v : List String) (u1 u2 : String)
    (hne : u1 ≠ u2) (h2 : isVisited v u2 = false) :
    isVisited (markVisited v u1) u1 = true ∧
    (claimStep (claimStep v u1).2 u1).1 = false ∧
    isVisited (markVisited v u1) u2 = isVisited v u2 ∧
    (claimStep (claimStep v u1).2 u2).1 = true := by
  have h1 : isVisited (markVisited v u1) u1 = true := by
    simp [isVisited, markVisited, List.elem_eq_mem]
  have h3 : isVisited (markVisited v u1) u2 = isVisited v u2 := by
    simp only [isVisited, markVisited]
    simp [List.elem_eq_mem, List.mem_insert_iff]
    intro hc
    exact absurd hc.symm hne
  refine ⟨h1, ?_, h3, ?_⟩
  · by_cases hv : isVisited v u1
    · simp [claimStep, hv]
    · simp only [claimStep, hv, if_neg, Bool.false_eq_true, if_false]
      simp [h1]
  · by_cases hv : isVisited v u1
    · simp [claimStep, hv, h2]
    · simp only [claimStep, hv, Bool.false_eq_true, if_false]
      rw [h3]
      simp [h2, claimStep]

/-- Claim C5: `shouldCrawl` is a pure function returning true exactly when
the (already resolved) candidate parses to a URL with the base's host and
an `http`/`https` scheme; every unparseable candidate yields false rather
than an error.  The spec's scenario: against seed `http://ex.test/`,
`/a` resolves to `http://ex.test/a` and is in scope, while a cross-host
link and a `javascript:` link are not. -/
theorem shouldCrawl_scope (target : String) (base : GoURL) :
    (shouldCrawl target base = true ↔
      ∃ t, urlParse target = some t ∧ t.host = base.host ∧
        (t.scheme = "http" ∨ t.scheme = "https")) ∧
    (urlParse target = none → shouldCrawl target base = false) ∧
    resolveURL { scheme := "http", host := "ex.test", path := "/" } "/a"
      = "http://ex.test/a" ∧
    shouldCrawl "http://ex.test/a" { scheme := "http", host := "ex.test", path := "/" }
      = true ∧
    shouldCrawl (resolveURL { scheme := "http", host := "ex.test", path := "/" }
        "http://other.test/x") { scheme := "http", host := "ex.test", path := "/" }
      = false ∧
    shouldCrawl (resolveURL { scheme := "http", host := "ex.test", path := "/" }
        "javascript:void(0)") { scheme := "http", host := "ex.test", path := "/" }
      = false := by
  refine ⟨?_, ?_, by decide, by decide, by decide, by decide⟩
  · unfold shouldCrawl
    cases h : urlParse target with
    | none => simp
    | some t =>
      simp only [Option.some.injEq]
      constructor
      · intro hb
        refine ⟨t, rfl, ?_⟩
        simpa using hb
      · rintro ⟨t', ht', hhost, hscheme⟩
        cases ht'
        simp [hhost, hscheme]
  · intro h
    unfold shouldCrawl
    rw [h]

/-- Claim C3 amended, witness at the fragment pair `/a#x`, `/a#y`. -/
theorem visited_key_is_raw_string_witness :
    ("http://ex.test/a#x" : String) ≠ "http://ex.test/a#y" ∧
    (claimStep (claimStep [] "http://ex.test/a#x").2 "http://ex.test/a#y").1
      = true :=
  ⟨by decide,
   (visited_key_is_raw_string [] "http://ex.test/a#x" "http://ex.test/a#y"
      (by decide) (by decide)).2.2.2⟩

/-- Claim C5, witness: a candidate with an invalid percent-escape is
unparseable and `shouldCrawl` returns false on it. -/
theorem shouldCrawl_scope_witness :
    urlParse "http://ex.test/%zz" = none ∧
    shouldCrawl "http://ex.test/%zz"
      { scheme := "http", host := "ex.test", path := "/" } = false :=
  ⟨by decide,
   (shouldCrawl_scope "http://ex.test/%zz"
      { scheme := "http", host := "ex.test", path := "/" }).2.1 (by decide)⟩

/-- Each bucket event preserves the capacity field. -/
theorem applyOp_capacity (st : RateLimiter) (op : RLOp) :
    (applyOp st op).capacity = st.capacity := by
  cases op with
  | refill =>
    simp only [applyOp, refillTick]
    split <;> rfl
  | acquire c =>
    simp only [applyOp, wait]
    split
    · rfl
    · split <;> rfl

/-- Each bucket event preserves `tokens ≤ capacity`. -/
theorem applyOp_tokens_le (st : RateLimiter) (op : RLOp)
    (h : st.tokens ≤ st.capacity) : (applyOp st op).tokens ≤ st.capacity := by
  cases op with
  | refill =>
    simp only [applyOp, refillTick]
    split
    · next hlt => simpa using hlt
    · simpa using h
  | acquire c =>
    simp only [applyOp, wait]
    split
    · exact h
    · split
      · simp only
        omega
      · exact h

/-- Every event sequence preserves `tokens ≤ capacity`. -/
theorem applyOps_tokens_le (ops : List RLOp) (st : RateLimiter)
    (h : st.tokens ≤ st.capacity) : (applyOps st ops).tokens ≤ st.capacity := by
  induction ops generalizing st with
  | nil => exact h
  | cons op ops ih =>
    have hcap := applyOp_capacity st op
    have := ih (applyOp st op) (by rw [hcap]; exact applyOp_tokens_le st op h)
    rw [hcap] at this
    exact this

/-- Claim C7: a constructed rate limiter starts with its bucket filled to
exactly its capacity; a refill tick adds one token exactly when the bucket
is below capacity and is a silent no-op otherwise (no blocking, no error);
and under every sequence of refill and acquire events, the token count
never exceeds the capacity. -/
theorem rate_limiter_token_invariant (rps : Int) (rl : RateLimiter)
    (h : NewRateLimiter rps = .ok rl) :
    rl.tokens = rl.capacity ∧
    (∀ ops : List RLOp, (applyOps rl ops).tokens ≤ rl.capacity) ∧
    (∀ st : RateLimiter, st.tokens < st.capacity →
      refillTick st = { st with tokens := st.tokens + 1 }) ∧
    (∀ st : RateLimiter, ¬ st.tokens < st.capacity → refillTick st = st) := by
  have heq : rl.tokens = rl.capacity := by
    simp only [NewRateLimiter] at h
    split at h
    · exact absurd h (by simp)
    · split at h
      · exact absurd h (by simp)
      · cases h
        rfl
  refine ⟨heq, ?_, ?_, ?_⟩
  · intro ops
    exact applyOps_tokens_le ops rl (le_of_eq heq)
  · intro st hlt
    simp [refillTick, hlt]
  · intro st hge
    simp [refillTick, hge]

/-- Claim C7, witness at `requestsPerSecond = 5` with a concrete event
sequence containing a refill against a full bucket. -/
theorem rate_limiter_token_invariant_witness :
    ({ capacity := 5, tokens := 5 } : RateLimiter).tokens
      = ({ capacity := 5, tokens := 5 } : RateLimiter).capacity ∧
    (applyOps { capacity := 5, tokens := 5 }
      [.refill, .acquire false, .refill, .refill]).tokens
      ≤ ({ capacity := 5, tokens := 5 } : RateLimiter).capacity :=
  ⟨(rate_limiter_token_invariant 5 { capacity := 5, tokens := 5 } rfl).1,
   (rate_limiter_token_invariant 5 { capacity := 5, tokens := 5 } rfl).2.1
     [.refill, .acquire false, .refill, .refill]⟩

/-- A non-blocking enqueue never pushes the buffer above capacity. -/
theorem tryEnqueue_length_le (q : List Job) (j : Job)
    (h : q.length ≤ queueCapacity) : (tryEnqueue q j).length ≤ queueCapacity := by
  simp only [tryEnqueue]
  split
  · next hlt => simpa using hlt
  · exact h

/-- The link-enqueue loop never pushes the buffer above capacity. -/
theorem enqueueLinks_length_le (links : List String) (base : GoURL)
    (depth : Int) (q : List Job) (h : q.length ≤ queueCapacity) :
    (enqueueLinks base depth q links).length ≤ queueCapacity := by
  induction links generalizing q with
  | nil => exact h
  | cons link links ih =>
    simp only [enqueueLinks, List.foldl_cons]
    split
    · exact ih _ (tryEnqueue_length_le _ _ h)
    · exact ih _ h

/-- Claim C9: when the job-queue buffer holds its full capacity (100), the
worker's non-blocking enqueue leaves the buffer exactly unchanged (the
link is dropped; the function is total, so the discovering worker is not
blocked); below capacity it appends; and no worker step ever grows the
buffer beyond capacity. -/
theorem backpressure_drop (q : List Job) (j : Job) :
    (q.length = queueCapacity → tryEnqueue q j = q) ∧
    (q.length < queueCapacity → tryEnqueue q j = q ++ [j]) ∧
    (q.length ≤ queueCapacity → (tryEnqueue q j).length ≤ queueCapacity) ∧
    (∀ (maxDepth : Int) (o : String → FetchOutcome) (st : CrawlState) (jb : Job),
      st.queue.length ≤ queueCapacity →
      (processJob maxDepth o st jb).queue.length ≤ queueCapacity) := by
  refine ⟨?_, ?_, fun h => tryEnqueue_length_le q j h, ?_⟩
  · intro h
    simp [tryEnqueue, h]
  · intro h
    simp [tryEnqueue, h]
  · intro maxDepth o st jb h
    unfold processJob
    split
    · exact h
    · cases o jb.url with
      | netError msg d => exact h
      | response status parsed d =>
        simp only
        split
        · exact h
        · cases parsed with
          | error msg => exact h
          | ok info =>
            simp only
            split
            · cases urlParse jb.url with
              | none => exact h
              | some base => exact enqueueLinks_length_le info.links base jb.depth _ h
            · exact h

/-- Claim C9, witness at a buffer holding exactly 100 jobs. -/
theorem backpressure_drop_witness :
    (List.replicate 100 ({ url := "http://ex.test/", depth := 1 } : Job)).length
      = queueCapacity ∧
    tryEnqueue (List.replicate 100 { url := "http://ex.test/", depth := 1 })
        { url := "http://ex.test/a", depth := 2 }
      = List.replicate 100 { url := "http://ex.test/", depth := 1 } :=
  ⟨by simp [queueCapacity],
   (backpressure_drop (List.replicate 100 { url := "http://ex.test/", depth := 1 })
      { url := "http://ex.test/a", depth := 2 }).1 (by simp [queueCapacity])⟩

/-- Claim C8: for a claimed job (its URL not yet visited), each worker
iteration records exactly one `PageResult`: on a network error, a non-200
status, or a parse error the appended page is failed (`success = false`)
with the error text preserved, nothing is enqueued, and the worker's state
remains well-formed for the next job; on success the appended page is
successful with empty error text.  A job whose URL was already visited
records nothing and changes nothing. -/
theorem fetch_error_records_failed_result (maxDepth : Int)
    (o : String → FetchOutcome) (st : CrawlState) (j : Job)
    (hv : isVisited st.visited j.url = false) :
    (∀ msg d, o j.url = .netError msg d →
      (processJob maxDepth o st j).results = st.results ++
        [{ url := j.url, title := "", description := "", links := [],
           responseTimeNs := d, success := false, error := msg }] ∧
      (processJob maxDepth o st j).queue = st.queue) ∧
    (∀ status parsed d, o j.url = .response status parsed d → status ≠ 200 →
      (processJob maxDepth o st j).results = st.results ++
        [{ url := j.url, title := "", description := "", links := [],
           responseTimeNs := d, success := false,
           error := "status " ++ toString status }] ∧
      (processJob maxDepth o st j).queue = st.queue) ∧
    (∀ msg d, o j.url = .response 200 (.error msg) d →
      (processJob maxDepth o st j).results = st.results ++
        [{ url := j.url, title := "", description := "", links := [],
           responseTimeNs := d, success := false, error := msg }] ∧
      (processJob maxDepth o st j).queue = st.queue) ∧
    (∀ info d, o j.url = .response 200 (.ok info) d →
      (processJob maxDepth o st j).results = st.results ++
        [{ url := j.url, title := info.title, description := info.description,
           links := info.links, responseTimeNs := d, success := true,
           error := "" }]) ∧
    (∀ (st' : CrawlState) (j' : Job), isVisited st'.visited j'.url = true →
      processJob maxDepth o st' j' = st') := by
  refine ⟨?_, ?_, ?_, ?_, ?_⟩
  · intro msg d ho
    simp [processJob, hv, ho, AddPage]
  · intro status parsed d ho hs
    cases parsed with
    | error m => simp [processJob, hv, ho, hs, AddPage]
    | ok info => simp [processJob, hv, ho, hs, AddPage]
  · intro msg d ho
    simp [processJob, hv, ho, AddPage]
  · intro info d ho
    unfold processJob
    simp only [hv, Bool.false_eq_true, if_false, ho]
    simp only [ne_eq, not_true_eq_false, if_false, AddPage, Option.isNone_none,
      Option.getD_none]
    split
    · cases urlParse j.url <;> rfl
    · rfl
  · intro st' j' hv'
    simp [processJob, hv']

/-- Claim C8, witness at a network-error fetch of an unvisited URL. -/
theorem fetch_error_records_failed_result_witness :
    isVisited ([] : List String) "http://ex.test/" = false ∧
    (processJob 2 (fun _ => .netError "connection refused" 3)
        { queue := [], visited := [], results := [], processed := [] }
        { url := "http://ex.test/", depth := 0 }).results
      = [{ url := "http://ex.test/", title := "", description := "",
           links := [], responseTimeNs := 3, success := false,
           error := "connection refused" }] :=
  ⟨by decide,
   by
    simpa using
      ((fetch_error_records_failed_result 2 (fun _ => .netError "connection refused" 3)
          { queue := [], visited := [], results := [], processed := [] }
          { url := "http://ex.test/", depth := 0 } (by decide)).1
        "connection refused" 3 rfl).1⟩

/-- Membership after a non-blocking enqueue: the old jobs, or the new one. -/
theorem mem_tryEnqueue (q : List Job) (j jb : Job)
    (h : jb ∈ tryEnqueue q j) : jb ∈ q ∨ jb = j := by
  simp only [tryEnqueue] at h
  split at h
  · rcases List.mem_append.mp h with hq | hj
    · exact Or.inl hq
    · exact Or.inr (List.mem_singleton.mp hj)
  · exact Or.inl h

/-- Membership after the link-enqueue loop: the old jobs, or a child at
the parent's depth + 1. -/
theorem mem_enqueueLinks (links : List String) (base : GoURL) (depth : Int)
    (q : List Job) (jb : Job) (h : jb ∈ enqueueLinks base depth q links) :
    jb ∈ q ∨ jb.depth = depth + 1 := by
  induction links generalizing q with
  | nil => exact Or.inl h
  | cons link links ih =>
    simp only [enqueueLinks, List.foldl_cons] at h
    split at h
    · rcases ih _ h with hq | hd
      · rcases mem_tryEnqueue _ _ _ hq with hq' | hj
        · exact Or.inl hq'
        · subst hj
          exact Or.inr rfl
      · exact Or.inr hd
    · exact ih _ h

/-- A worker step with a job at or beyond the depth bound leaves the queue
buffer exactly unchanged. -/
theorem processJob_queue_of_deep (maxDepth : Int) (o : String → FetchOutcome)
    (st : CrawlState) (j : Job) (hd : maxDepth ≤ j.depth) :
    (processJob maxDepth o st j).queue = st.queue := by
  have hnd : ¬ j.depth < maxDepth := not_lt.mpr hd
  unfold processJob
  split
  · rfl
  · cases o j.url with
    | netError msg d => rfl
    | response status parsed d =>
      simp only
      split
      · rfl
      · cases parsed with
        | error msg => rfl
        | ok info => simp [hnd]

/-- Queue membership across one worker step: an old job, or a child
enqueued because the processed job was strictly below the depth bound. -/
theorem processJob_queue_mem (maxDepth : Int) (o : String → FetchOutcome)
    (st : CrawlState) (j jb : Job)
    (h : jb ∈ (processJob maxDepth o st j).queue) :
    jb ∈ st.queue ∨ (j.depth < maxDepth ∧ jb.depth = j.depth + 1) := by
  by_cases hd : j.depth < maxDepth
  · unfold processJob at h
    split at h
    · exact Or.inl h
    · cases ho : o j.url with
      | netError msg d =>
        rw [ho] at h
        exact Or.inl h
      | response status parsed d =>
        rw [ho] at h
        simp only at h
        split at h
        · exact Or.inl h
        · cases parsed with
          | error msg => exact Or.inl h
          | ok info =>
            simp only [if_pos hd] at h
            cases hb : urlParse j.url with
            | none =>
              rw [hb] at h
              exact Or.inl h
            | some base =>
              rw [hb] at h
              rcases mem_enqueueLinks info.links base j.depth st.queue jb h with hq | hc
              · exact Or.inl hq
              · exact Or.inr ⟨hd, hc⟩
  · rw [processJob_queue_of_deep maxDepth o st j (not_lt.mp hd)] at h
    exact Or.inl h

/-- The ghost trace across one worker step: unchanged, or extended by the
processed job itself. -/
theorem processJob_processed_mem (maxDepth : Int) (o : String → FetchOutcome)
    (st : CrawlState) (j jb : Job)
    (h : jb ∈ (processJob maxDepth o st j).processed) :
    jb ∈ st.processed ∨ jb = j := by
  unfold processJob at h
  split at h
  · exact Or.inl h
  · have hm : jb ∈ st.processed ++ [j] := by
      cases ho : o j.url with
      | netError msg d =>
        rw [ho] at h
        exact h
      | response status parsed d =>
        rw [ho] at h
        simp only at h
        split at h
        · exact h
        · cases parsed with
          | error msg => exact h
          | ok info =>
            simp only at h
            split at h
            · cases hb : urlParse j.url with
              | none =>
                rw [hb] at h
                exact h
              | some base =>
                rw [hb] at h
                exact h
            · exact h
    rcases List.mem_append.mp hm with hq | hj
    · exact Or.inl hq
    · exact Or.inr (List.mem_singleton.mp hj)

/-- Claim C6 as amended (assuming `0 ≤ maxDepth`, which the spec's
configuration contract demands but `New` does not enforce): every
reachable crawl state has only jobs of depth ≤ `maxDepth` in the queue
buffer, every fetched job (hence every `PageResult`) has depth ≤
`maxDepth`; moreover a step on a job at depth ≥ `maxDepth` enqueues
nothing, and any job a step adds to the queue is a child at the parent's
depth + 1, added only because the parent was strictly below `maxDepth`. -/
theorem depth_bound (maxDepth : Int) (seed : String) (hd : 0 ≤ maxDepth) :
    (∀ st, Reachable maxDepth seed st →
      (∀ j ∈ st.queue, j.depth ≤ maxDepth) ∧
      (∀ j ∈ st.processed, j.depth ≤ maxDepth)) ∧
    (∀ (o : String → FetchOutcome) (st : CrawlState) (j : Job),
      maxDepth ≤ j.depth → (processJob maxDepth o st j).queue = st.queue) ∧
    (∀ (o : String → FetchOutcome) (st : CrawlState) (j jb : Job),
      jb ∈ (processJob maxDepth o st j).queue →
      jb ∈ st.queue ∨ (j.depth < maxDepth ∧ jb.depth = j.depth + 1)) := by
  refine ⟨?_, fun o st j h => processJob_queue_of_deep maxDepth o st j h,
    fun o st j jb h => processJob_queue_mem maxDepth o st j jb h⟩
  intro st hr
  induction hr with
  | init =>
    constructor
    · intro j hj
      simp only [initState, List.mem_singleton] at hj
      subst hj
      exact hd
    · intro j hj
      simp [initState] at hj
  | step h hq o ih =>
    obtain ⟨ihq, ihp⟩ := ih
    constructor
    · intro jb hjb
      rcases processJob_queue_mem _ _ _ _ _ hjb with hold | ⟨hlt, heq⟩
      · exact ihq jb (by rw [hq]; exact List.mem_cons_of_mem _ hold)
      · have hjd := ihq _ (by rw [hq]; exact List.mem_cons_self _ _)
        omega
    · intro jb hjb
      rcases processJob_processed_mem _ _ _ _ _ hjb with hold | heq
      · exact ihp jb hold
      · subst heq
        exact ihq _ (by rw [hq]; exact List.mem_cons_self _ _)

/-- Claim C6 amended, witness: a valid depth bound and the seed job of a
freshly started run. -/
theorem depth_bound_witness :
    ((0 : Int) ≤ 2) ∧
    ({ url := "http://ex.test/", depth := 0 } : Job).depth ≤ (2 : Int) :=
  ⟨by decide,
   ((depth_bound 2 "http://ex.test/" (by decide)).1 (initState "http://ex.test/")
      Reachable.init).1 { url := "http://ex.test/", depth := 0 }
      (List.mem_cons_self _ _)⟩

/-- Claim C6, counterexample to its unconditional form: `New` accepts
`maxDepth = -1`, and in that run the seed job at depth 0 — which exceeds
`maxDepth` — is still fetched and produces a `PageResult` (depth only
gates the enqueueing of children, not the fetch). -/
theorem depth_bound_negative_maxDepth_ce :
    Reachable (-1) "http://ex.test/" negDepthState ∧
    negDepthState.processed = [{ url := "http://ex.test/", depth := 0 }] ∧
    negDepthState.results.length = 1 ∧
    ¬ ((0 : Int) ≤ -1) :=
  ⟨Reachable.step Reachable.init rfl okFetch, by decide, by decide, by decide⟩

/-- Replaying `AddPage` calls appends their pages in call order. -/
theorem runAddPages_eq_map (calls : List AddCall) :
    runAddPages calls = calls.map AddCall.toPage := by
  have hgen : ∀ (cs : List AddCall) (init : List Page),
      cs.foldl
        (fun pages c =>
          AddPage pages c.url c.title c.description c.links c.responseTimeNs c.err)
        init = init ++ cs.map AddCall.toPage := by
    intro cs
    induction cs with
    | nil => simp
    | cons c cs ih =>
      intro init
      rw [List.foldl_cons, ih]
      simp [AddPage, AddCall.toPage]
  simpa using hgen calls []

/-- Claim C10: after any sequence of `AddPage` calls, the statistics
satisfy `SuccessCount + FailCount = TotalPages`, `TotalPages` is the
number of calls, `SuccessCount` counts exactly the calls with a nil
error, the average response time is the (truncated-millisecond) sum of
all response times divided by the page count when there are pages, and
every statistic is zero when there are none. -/
theorem getStats_invariant (calls : List AddCall) (durationNs : Nat) :
    (GetStats (runAddPages calls) durationNs).successCount
        + (GetStats (runAddPages calls) durationNs).failCount
      = (GetStats (runAddPages calls) durationNs).totalPages ∧
    (GetStats (runAddPages calls) durationNs).totalPages = calls.length ∧
    (GetStats (runAddPages calls) durationNs).successCount
      = (calls.filter fun c => c.err.isNone).length ∧
    (0 < (GetStats (runAddPages calls) durationNs).totalPages →
      (GetStats (runAddPages calls) durationNs).avgResponseTime
        = (((calls.map AddCall.responseTimeNs).sum / 1000000 : Nat) : Rat)
            / (calls.length : Rat)) ∧
    ((GetStats (runAddPages calls) durationNs).totalPages = 0 →
      (GetStats (runAddPages calls) durationNs).successCount = 0 ∧
      (GetStats (runAddPages calls) durationNs).failCount = 0 ∧
      (GetStats (runAddPages calls) durationNs).avgResponseTime = 0 ∧
      (GetStats (runAddPages calls) durationNs).uniqueLinks = 0) := by
  rw [runAddPages_eq_map]
  by_cases hc : calls = []
  · subst hc
    simp [GetStats]
  · have hne : ¬ (calls.length = 0) := by
      simp [List.length_eq_zero, hc]
    refine ⟨?_, ?_, ?_, ?_, ?_⟩
    · simp only [GetStats, List.length_map, if_neg hne]
      simpa using ((calls.map AddCall.toPage).length_eq_length_filter_add Page.success).symm
    · simp only [GetStats, List.length_map, if_neg hne]
    · simp only [GetStats, List.length_map, if_neg hne]
      rw [List.filter_map, List.length_map]
      congr 1
    · intro _
      simp only [GetStats, List.length_map, if_neg hne, List.map_map]
      congr 2
    · intro h
      simp only [GetStats, List.length_map, if_neg hne] at h
      exact absurd (List.length_eq_zero.mp h) hc

/-- Claim C10, witness at a single successful `AddPage` call. -/
theorem getStats_invariant_witness :
    0 < (GetStats (runAddPages [AddCall.mk "u" "t" "d" ["l"] 2500000 none]) 9).totalPages ∧
    (GetStats (runAddPages [AddCall.mk "u" "t" "d" ["l"] 2500000 none]) 9).avgResponseTime
      = (((([AddCall.mk "u" "t" "d" ["l"] 2500000 none].map
              AddCall.responseTimeNs).sum / 1000000 : Nat) : Rat)
          / (([AddCall.mk "u" "t" "d" ["l"] 2500000 none] : List AddCall).length : Rat)) :=
  ⟨by decide,
   (getStats_invariant [AddCall.mk "u" "t" "d" ["l"] 2500000 none] 9).2.2.2.1
     (by decide)⟩

/-- Shifting one poll off the front of the trace re-bases the detector's
stable counter on the first poll's size. -/
theorem streakG_shift (p s c : Nat) (rest : List Nat) (j : Nat) :
    streakG p s (c :: rest) (j + 1)
      = streakG c (if c = p then s + 1 else 0) rest j := by
  induction j with
  | zero =>
    simp only [streakG, sizeAt, List.getD_cons_succ, List.getD_cons_zero]
  | succ j ih =>
    simp only [streakG, sizeAt, List.getD_cons_succ] at ih ⊢
    rw [ih]

/-- Characterisation of the detector's stop index in terms of its stable
counter: it signals at the first poll where the counter reaches 3. -/
theorem detectorRunTicks_eq_some_iff (sizes : List Nat) (p s k : Nat) :
    detectorRunTicks { prev := p, stable := s } sizes = some k ↔
      (k < sizes.length ∧ 3 ≤ streakG p s sizes k ∧
       ∀ j < k, ¬ 3 ≤ streakG p s sizes j) := by
  induction sizes generalizing p s k with
  | nil =>
    simp [detectorRunTicks, detectorRun]
  | cons c rest ih =>
    have hs0 : streakG p s (c :: rest) 0 = if c = p then s + 1 else 0 := by
      simp [streakG, sizeAt]
    by_cases hsig : 3 ≤ (if c = p then s + 1 else 0)
    · have hrun : detectorRunTicks { prev := p, stable := s } (c :: rest) = some 0 := by
        simp [detectorRunTicks, detectorRun, detectorTick, hsig]
      rw [hrun]
      constructor
      · rintro h
        cases h
        exact ⟨by simp, by rw [hs0]; exact hsig,
          fun j hj => absurd hj (Nat.not_lt_zero j)⟩
      · rintro ⟨hk, hst, hmin⟩
        cases k with
        | zero => rfl
        | succ k =>
          exact absurd (by rw [hs0]; exact hsig) (hmin 0 (Nat.succ_pos k))
    · have hrun : detectorRunTicks { prev := p, stable := s } (c :: rest)
          = (detectorRunTicks { prev := c, stable := if c = p then s + 1 else 0 } rest).map
              (· + 1) := by
        simp [detectorRunTicks, detectorRun, detectorTick, hsig]
      rw [hrun]
      cases k with
      | zero =>
        constructor
        · intro h
          rcases Option.map_eq_some'.mp h with ⟨k', _, hk'⟩
          omega
        · rintro ⟨hk, hst, hmin⟩
          rw [hs0] at hst
          exact absurd hst hsig
      | succ k =>
        constructor
        · intro h
          rcases Option.map_eq_some'.mp h with ⟨k', hk', hkk⟩
          have hk1 : k' = k := by omega
          rw [hk1] at hk'
          rcases (ih c (if c = p then s + 1 else 0) k).mp hk' with ⟨hlen, hst, hmin⟩
          refine ⟨by simpa using hlen, by rwa [streakG_shift], ?_⟩
          intro j hj
          cases j with
          | zero =>
            rw [hs0]
            exact hsig
          | succ j =>
            rw [streakG_shift]
            exact hmin j (by omega)
        · rintro ⟨hlen, hst, hmin⟩
          rw [streakG_shift] at hst
          have hmin' : ∀ j < k, ¬ 3 ≤ streakG c (if c = p then s + 1 else 0) rest j := by
            intro j hj
            rw [← streakG_shift p s]
            exact hmin (j + 1) (by omega)
          have := (ih c (if c = p then s + 1 else 0) k).mpr
            ⟨by simpa using hlen, hst, hmin'⟩
          rw [this]
          rfl

/-- The stable counter is positive exactly when the latest poll observed
no change. -/
theorem one_le_streakG_iff (sizes : List Nat) (j : Nat) :
    1 ≤ streakG 0 0 sizes j ↔ unchangedAt sizes j = true := by
  cases j with
  | zero =>
    simp only [streakG, unchangedAt, if_pos rfl, beq_iff_eq]
    split <;> simp_all
  | succ j =>
    simp only [streakG, unchangedAt, Nat.succ_ne_zero, if_neg, Nat.add_sub_cancel,
      beq_iff_eq]
    split <;> simp_all

/-- The stable counter reaches 2 at poll `j+1` exactly when the last two
polls observed no change. -/
theorem two_le_streakG_iff (sizes : List Nat) (j : Nat) :
    2 ≤ streakG 0 0 sizes (j + 1) ↔
      (unchangedAt sizes (j + 1) = true ∧ unchangedAt sizes j = true) := by
  have h1 := one_le_streakG_iff sizes j
  have hu1 : unchangedAt sizes (j + 1)
      = (sizeAt sizes (j + 1) == sizeAt sizes j) := by
    simp [unchangedAt]
  rw [hu1]
  simp only [streakG, beq_iff_eq]
  split
  · next hu =>
    constructor
    · intro h
      exact ⟨hu, h1.mp (by omega)⟩
    · rintro ⟨-, hj⟩
      have := h1.mpr hj
      omega
  · next hu =>
    constructor
    · intro h
      omega
    · rintro ⟨hc, -⟩
      exact absurd hc hu

/-- The stable counter reaches 3 at poll `k` exactly when polls `k-2`,
`k-1`, `k` form three consecutive unchanged polls. -/
theorem three_le_streakG_iff (sizes : List Nat) (k : Nat) :
    3 ≤ streakG 0 0 sizes k ↔ stableTriple sizes k = true := by
  rcases k with _ | _ | k
  · constructor
    · intro h
      have h0 : streakG 0 0 sizes 0 ≤ 1 := by
        simp only [streakG]
        split <;> omega
      omega
    · intro h
      simp [stableTriple] at h
  · constructor
    · intro h
      have h0 : streakG 0 0 sizes 0 ≤ 1 := by
        simp only [streakG]
        split <;> omega
      have h1 : streakG 0 0 sizes (0 + 1) ≤ 2 := by
        rw [streakG]
        split <;> omega
      omega
    · intro h
      simp [stableTriple] at h
  · have h2 := two_le_streakG_iff sizes k
    have he1 : k + 2 - 1 = k + 1 := by omega
    have he2 : k + 2 - 2 = k := by omega
    constructor
    · intro h
      by_cases hc : sizeAt sizes (k + 2) = sizeAt sizes (k + 1)
      · have h2' : 2 ≤ streakG 0 0 sizes (k + 1) := by
          simp only [streakG, if_pos hc] at h
          simp only [streakG]
          omega
        obtain ⟨hu1, hu0⟩ := h2.mp h2'
        have hu2 : unchangedAt sizes (k + 2) = true := by
          simp [unchangedAt, hc]
        simp [stableTriple, he1, he2, hu2, hu1, hu0]
      · simp only [streakG, if_neg hc] at h
        omega
    · intro h
      simp only [stableTriple, he1, he2, Bool.and_eq_true, decide_eq_true_eq] at h
      obtain ⟨⟨⟨-, hu2⟩, hu1⟩, hu0⟩ := h
      have hc : sizeAt sizes (k + 2) = sizeAt sizes (k + 1) := by
        simpa [unchangedAt] using hu2
      have h2' : 2 ≤ streakG 0 0 sizes (k + 1) := h2.mpr ⟨hu1, hu0⟩
      simp only [streakG] at h2'
      simp only [streakG, if_pos hc]
      omega

/-- Claim C4: the detector (which polls the visited-set size on its fixed
500ms ticker) signals the queue-closing `jobsDone` event at poll `k`
exactly when `k` is the first poll ending three consecutive polls with no
change in the visited-set size — i.e. after exactly 3 consecutive
unchanged polls — and a context-cancellation event pre-empts it
immediately, whatever its polling state. -/
theorem detector_convergence :
    (∀ (st : DetectorState) (rest : List DetectorEvent),
      detectorRun st (.cancel :: rest) = some 0) ∧
    detectorPollIntervalMs = 500 ∧
    (∀ (sizes : List Nat) (k : Nat),
      detectorRunTicks detectorInit sizes = some k ↔
        (k < sizes.length ∧ stableTriple sizes k = true ∧
         ∀ j < k, ¬ stableTriple sizes j = true)) := by
  refine ⟨fun st rest => rfl, rfl, fun sizes k => ?_⟩
  have hiff := detectorRunTicks_eq_some_iff sizes 0 0 k
  rw [show detectorInit = { prev := 0, stable := 0 } from rfl, hiff]
  simp only [three_le_streakG_iff]

/-- Claim C4, witness: an immediate cancellation, and a trace whose first
three polls are unchanged (size 0) making the detector fire at poll 2. -/
theorem detector_convergence_witness :
    detectorRun detectorInit [DetectorEvent.cancel] = some 0 ∧
    detectorRunTicks detectorInit [0, 0, 0, 5] = some 2 :=
  ⟨detector_convergence.1 detectorInit [],
   (detector_convergence.2.2 [0, 0, 0, 5] 2).mpr (by decide)⟩
